import Mathlib

/-!
Verification of the govsphere code generator (`generate.go`).

The Go source is shallowly embedded below.  Go strings are modelled as Lean
`String` (a list of characters); `strings.Split`, `strings.HasSuffix` and
`strings.TrimLeftFunc` are modelled by character-list functions; Go map reads
`m[k]` (which yield the zero value `""` for a missing key) are modelled by
`mapGet` over an association list, and map assignment by prepending (the most
recent binding shadows older ones, exactly like overwriting).  A Go slice
expression that can go out of range (`type_[0:3]` in `lookUpNamespace`) is
modelled by returning `none` (panic) in an `Option` result.
-/

/-- Go `unicode.IsSpace`: the Unicode White_Space property. -/
def goIsSpace (c : Char) : Bool :=
  let n := c.toNat
  n = 0x9 || n = 0xa || n = 0xb || n = 0xc || n = 0xd || n = 0x20 ||
  n = 0x85 || n = 0xa0 || n = 0x1680 || (0x2000 ≤ n && n ≤ 0x200a) ||
  n = 0x2028 || n = 0x2029 || n = 0x202f || n = 0x205f || n = 0x3000

/-- Go `strings.Split(s, sep)` for a one-character separator, at the
character-list level: splits into the (possibly empty) segments between
occurrences of `sep`.  `splitOnChar sep cs` is never empty. -/
def splitOnChar (sep : Char) (cs : List Char) : List (List Char) :=
  cs.foldr (fun c r => if c = sep then [] :: r else (c :: r.headD []) :: r.tail) [[]]

/-- Go `strings.Split(s, sep)` for a one-character separator, on `String`. -/
def goSplit (s : String) (sep : Char) : List String :=
  (splitOnChar sep s.data).map String.mk

/-- Go map read `m[k]` for a `map[string]string`: the value of the first
binding of `k`, or the zero value `""` when `k` is absent. -/
def mapGet (m : List (String × String)) (k : String) : String :=
  match m.find? (fun p => p.1 == k) with
  | some p => p.2
  | none => ""

/-- Go `_, ok := m[k]`: whether `k` is bound in the map. -/
def containsKey (m : List (String × String)) (k : String) : Bool :=
  (m.find? (fun p => p.1 == k)).isSome

/-- Go `strings.HasSuffix`. -/
def hasSuffix (s suffix : String) : Bool :=
  suffix.data.isSuffixOf s.data

/-- Go `s[:len(s)-n]` (for `n ≤ len s`). -/
def dropRightStr (s : String) (n : Nat) : String :=
  String.mk (s.data.take (s.data.length - n))

/-- Whether `s` starts with `t` (used to state claims about decoration
markers). -/
def strStartsWith (s t : String) : Bool :=
  t.data.isPrefixOf s.data

/-- The `reservedWords` table of `generate.go`: Go keywords mapped to their
escaped forms. -/
def reservedWords : List (String × String) :=
  [("break", "break_"),
   ("default", "default_"),
   ("func", "func_"),
   ("interface", "interface_"),
   ("select", "select_"),
   ("case", "case_"),
   ("defer", "defer_"),
   ("go", "go_"),
   ("map", "map_"),
   ("struct", "struct_"),
   ("chan", "chan_"),
   ("else", "else_"),
   ("goto", "goto_"),
   ("package", "package_"),
   ("switch", "switch_"),
   ("const", "const_"),
   ("fallthrough", "fallthrough_"),
   ("if", "if_"),
   ("range", "range_"),
   ("type", "type_"),
   ("continue", "continue_"),
   ("for", "for_"),
   ("import", "import_"),
   ("return", "return_"),
   ("var", "var_")]

/-- `replaceReservedWords` of `generate.go`: return the table value when the
lookup yields a non-empty string, the identifier itself otherwise. -/
def replaceReservedWords (identifier : String) : String :=
  let value := mapGet reservedWords identifier
  if value ≠ "" then value else identifier

/-- The `xsd2GoTypes` table of `generate.go`. -/
def xsd2GoTypes : List (String × String) :=
  [("string", "string"),
   ("token", "string"),
   ("float", "float32"),
   ("double", "float64"),
   ("decimal", "float64"),
   ("integer", "int32"),
   ("int", "int32"),
   ("short", "int16"),
   ("byte", "int8"),
   ("long", "int64"),
   ("boolean", "bool"),
   ("dateTime", "time.Time"),
   ("date", "time.Time"),
   ("time", "time.Time"),
   ("base64Binary", "[]byte"),
   ("hexBinary", "[]byte"),
   ("unsignedInt", "uint32"),
   ("unsignedShort", "uint16"),
   ("unsignedByte", "byte"),
   ("unsignedLong", "uint64"),
   ("anyType", "interface\x7b\x7d")]

/-- `toGoType` of `generate.go`.  Splits off a `ns:` qualifier, looks the bare
name up in `xsd2GoTypes`; on a miss, an `[]`-suffixed token becomes `"[]" ++`
the bare base name when the base is in the table (note: the bare base name,
the looked-up value is discarded by `_, ok :=`) and `"[]*" ++ base` otherwise;
a scalar miss becomes `"*" ++` the name. -/
def toGoType (xsdType : String) : String :=
  if xsdType = "" then ""
  else
    let r := goSplit xsdType ':'
    let t0 := r.headD ""
    let type1 := if r.length = 2 then r.getD 1 "" else t0
    let value := mapGet xsd2GoTypes type1
    if value ≠ "" then value
    else if hasSuffix type1 "[]" then
      let base := dropRightStr type1 2
      if containsKey xsd2GoTypes base then "[]" ++ base
      else "[]*" ++ base
    else "*" ++ type1

/-- One line of `comment`: Go `strings.TrimLeftFunc(line, unicode.IsSpace)`. -/
def commentLine (l : List Char) : List Char := l.dropWhile goIsSpace

/-- The output accumulated by the loop of `comment`: for each line,
`"\n// " ++` the left-trimmed line. -/
def commentBody (ls : List (List Char)) : List Char :=
  match ls with
  | [] => []
  | l :: rest => '\n' :: '/' :: '/' :: ' ' :: (commentLine l ++ commentBody rest)

/-- The `hasComment` flag of `comment`: some line is non-empty after left
trimming. -/
def hasCommentFlag (ls : List (List Char)) : Bool :=
  ls.any (fun l => !(commentLine l).isEmpty)

/-- `comment` of `generate.go`: split the text on newlines; return `""` for
the single empty line (empty text); otherwise emit `"\n// " ++ trimmed line`
per line, but return `""` when no line has visible content. -/
def comment (text : String) : String :=
  let lines := splitOnChar '\n' text.data
  if lines = [[]] then ""
  else if hasCommentFlag lines then String.mk (commentBody lines) else ""

/-- The shared tail of `lookUpNamespace`: after the decoration `pfx` has been
stripped, look the bare name up in the namespace map and requalify. -/
def lookUpFinish (m : List (String × String)) (pfx type1 currentNs : String) : String :=
  let targetNs := mapGet m type1
  if targetNs = "" ∨ targetNs = currentNs then pfx ++ type1
  else pfx ++ targetNs ++ "." ++ type1

/-- `lookUpNamespace` of `generate.go`.  The Go code tests `type_[0:1] == "*"`
(safe, the input is non-empty here), then `type_[0:3] == "[]*"` — this slices
three bytes and PANICS when the input is shorter than three bytes — then
`type_[0:2] == "[]"` (safe once the previous slice succeeded).  The panic is
modelled by `none`: it is the arm where fewer than three characters remain
after the `*` test failed. -/
def lookUpNamespace (m : List (String × String)) (type0 currentNs : String) :
    Option String :=
  if type0 = "" then some type0
  else
    match type0.data with
    | [] => none
    | c1 :: rest1 =>
      if c1 = '*' then some (lookUpFinish m "*" (String.mk rest1) currentNs)
      else
        match rest1 with
        | c2 :: c3 :: rest3 =>
          if c1 = '[' ∧ c2 = ']' ∧ c3 = '*' then
            some (lookUpFinish m "[]*" (String.mk rest3) currentNs)
          else if c1 = '[' ∧ c2 = ']' then
            some (lookUpFinish m "[]" (String.mk (c3 :: rest3)) currentNs)
          else some (lookUpFinish m "" type0 currentNs)
        | _ => none

/-- Modelled from the spec: the schema `Object` record is not defined in
`src/generate.go` (only `json.Unmarshal(apiDef, &objects)` and the templates
use it).  Per the spec's data model a SchemaObject carries a name, an owning
namespace, an optional extends reference, fields and methods; only `Name` and
`Namespace` are read by the code verified here.  A field is modelled as a
(name, type-token) pair, a method as (name, parameters, return type-token). -/
structure Object where
  Name : String
  Namespace : String
  Extends : String
  Fields : List (String × String)
  Methods : List (String × List (String × String) × String)
  deriving DecidableEq

/-- The `objnsmap` population loop of `generate`: one serial pass over all
objects, assigning `objnsmap[obj.Name] = obj.Namespace` (assignment modelled
by prepending, so the latest binding wins on lookup). -/
def objnsmapOf (objects : List Object) : List (String × String) :=
  objects.foldl (fun m obj => (obj.Name, obj.Namespace) :: m) []

/-- Modelled from the spec: `headerTmpl` is referenced by `genCode` but not
defined in `src/generate.go`; per the spec it is the fixed license banner that
begins every generated file. -/
def headerTmpl : String :=
  "// This Source Code Form is subject to the terms of the Mozilla Public\n// License, v. 2.0. If a copy of the MPL was not distributed with this\n// file, You can obtain one at http://mozilla.org/MPL/2.0/.\n\n"

/-- The fixed per-namespace import block written by `genCode` (verbatim from
the branches of `genCode`; namespaces other than `do`, `mo`, `fault` get
no such block). -/
def importBlock (ns : String) : String :=
  if ns = "do" then
    "\n\t\t\t\timport (\n\t\t\t\t\t//\"github.com/c4milo/govsphere/vim/mo\"\n\t\t\t\t\t\"time\"\n\t\t\t\t)\n\t\t\t"
  else if ns = "mo" then
    "\n\t\t\t\timport (\n\t\t\t\t\t\"github.com/c4milo/govsphere/vim/do\"\n\t\t\t\t\t\"time\"\n\t\t\t\t)\n\t\t\t"
  else if ns = "fault" then
    "\n\t\t\t\timport (\n\t\t\t\t\t\"github.com/c4milo/govsphere/vim/do\"\n\t\t\t\t)\n\t\t\t"
  else ""

/-- The object loop of `genCode`: skip objects of other namespaces, render
each matching object and append it to the buffer `acc`; a template error
aborts (Go `log.Fatalln`).  Template parsing/execution lives outside
`src/generate.go`, so the renderer is a parameter. -/
def renderAll (render : String → Object → Except String String)
    (objects : List Object) (tmpl ns : String) (acc : String) :
    Except String String :=
  match objects with
  | [] => Except.ok acc
  | obj :: rest =>
    if obj.Namespace ≠ ns then renderAll render rest tmpl ns acc
    else
      match render tmpl obj with
      | Except.error e => Except.error e
      | Except.ok piece => renderAll render rest tmpl ns (acc ++ piece)

/-- The outcome of one `genCode` call: the output file path, what ended up
written to it (`none` when the run aborted before any write), and the fatal
log message when the run aborted. -/
structure GenCodeResult where
  file : String
  written : Option String
  fatalMsg : Option String
  deriving DecidableEq

/-- The output file path `mainPkg + "/" + namespace + "/" + namespace + ".go"`
of `genCode`. -/
def outFile (mainPkg ns : String) : String :=
  mainPkg ++ "/" ++ ns ++ "/" ++ ns ++ ".go"

/-- The boilerplate `genCode` writes into the buffer before the object loop:
license banner, package clause, fixed import block. -/
def baseBuffer (ns : String) : String :=
  headerTmpl ++ "package " ++ ns ++ "\n" ++ importBlock ns

/-- `genCode` of `generate.go`.  `fmtSource` abstracts `go/format.Source`
(post-processing), `render` abstracts template execution.  On a template
error the process dies with the error and nothing has been written; on a
post-processing error the raw buffer is written and the process dies with the
`"There are errors in the generated source for %s: %s\n"` message; on success
the reformatted text is written. -/
def genCode (fmtSource : String → Except String String)
    (render : String → Object → Except String String)
    (objects : List Object) (mainPkg tmpl ns : String) : GenCodeResult :=
  let file := outFile mainPkg ns
  match renderAll render objects tmpl ns (baseBuffer ns) with
  | Except.error e => { file := file, written := none, fatalMsg := some (e ++ "\n") }
  | Except.ok source =>
    match fmtSource source with
    | Except.ok fsource => { file := file, written := some fsource, fatalMsg := none }
    | Except.error e =>
      { file := file, written := some source,
        fatalMsg := some ("There are errors in the generated source for " ++ file ++ ": " ++ e ++ "\n") }

/-- Brace-nesting check used by the model of `go/format.Source`. -/
def braceBalanced : List Char → Nat → Bool
  | [], n => n == 0
  | c :: rest, n =>
    if c = Char.ofNat 123 then braceBalanced rest (n + 1)
    else if c = Char.ofNat 125 then
      match n with
      | 0 => false
      | k + 1 => braceBalanced rest k
    else braceBalanced rest n

/-- Modelled from the spec: `go/format.Source` is the Go standard library, not
code of this repository.  The spec describes the post-processor as a
validity/reformat step whose canonical failure is malformed nesting
(unbalanced braces), so it is modelled as a brace-balance check that returns
the text unchanged on success and an error otherwise. -/
def goFmtModel (s : String) : Except String String :=
  if braceBalanced s.data 0 then Except.ok s else Except.error "expected declaration"

/-! ### Theorems -/

/-- Auxiliary for the escaper: no value of the reserved-word table is itself a
key, so a second lookup of an escaped identifier misses. -/
theorem reservedWords_values_not_keys :
    ∀ p ∈ reservedWords, mapGet reservedWords p.2 = "" := by decide

/-- C1: for a type-token with an array suffix whose base name is in the
primitive table, `toGoType` does NOT return a sequence of the mapped native
type: the `_, ok :=` membership test discards the mapped value and the bare
base name is used as the element type ("[]int", "[]dateTime"), contradicting
the claim's "the element type is the mapped native type of that base". -/
theorem toGoType_array_elem_discards_mapping :
    toGoType "int[]" = "[]int" ∧
    toGoType "dateTime[]" = "[]dateTime" ∧
    mapGet xsd2GoTypes "int" = "int32" ∧
    mapGet xsd2GoTypes "dateTime" = "time.Time" ∧
    toGoType "int[]" ≠ "[]" ++ mapGet xsd2GoTypes "int" ∧
    toGoType "HostSystem[]" = "[]*" ++ "HostSystem" := by decide

/-- C5: every entry of the fixed primitive table maps to its declared native
type, and a namespace-prefix qualifier does not change the result:
`toGoType ("xsd:" ++ name)` equals `toGoType name` for every table entry. -/
theorem toGoType_primitive_table :
    ∀ p ∈ xsd2GoTypes, toGoType p.1 = p.2 ∧ toGoType ("xsd:" ++ p.1) = p.2 := by
  decide

/-- Witness for C5 at the table entry ("int", "int32"). -/
theorem toGoType_primitive_table_witness :
    toGoType "int" = "int32" ∧ toGoType ("xsd:" ++ "int") = "int32" :=
  toGoType_primitive_table ("int", "int32") (by decide)

/-- C4: the escaper appends the fixed suffix "_" to every reserved word,
leaves every identifier outside the table unchanged, and is idempotent. -/
theorem replaceReservedWords_spec :
    (∀ p ∈ reservedWords, replaceReservedWords p.1 = p.1 ++ "_") ∧
    (∀ identifier, containsKey reservedWords identifier = false →
      replaceReservedWords identifier = identifier) ∧
    (∀ identifier,
      replaceReservedWords (replaceReservedWords identifier) =
        replaceReservedWords identifier) := by
  refine ⟨by decide, ?_, ?_⟩
  · intro id h
    unfold containsKey at h
    unfold replaceReservedWords mapGet
    cases hf : List.find? (fun p => p.1 == id) reservedWords with
    | none => simp
    | some p => rw [hf] at h; simp at h
  · intro id
    by_cases h : mapGet reservedWords id = ""
    · have h1 : replaceReservedWords id = id := by
        unfold replaceReservedWords; simp [h]
      rw [h1]; exact h1
    · have h2 : replaceReservedWords id = mapGet reservedWords id := by
        unfold replaceReservedWords; simp [h]
      rw [h2]
      cases hf : List.find? (fun q => q.1 == id) reservedWords with
      | none => exact absurd (by unfold mapGet; rw [hf]) h
      | some p =>
        have hmem : p ∈ reservedWords := List.mem_of_find?_eq_some hf
        have hval : mapGet reservedWords id = p.2 := by unfold mapGet; rw [hf]
        have hempty : mapGet reservedWords p.2 = "" :=
          reservedWords_values_not_keys p hmem
        rw [hval]
        unfold replaceReservedWords
        simp [hempty]

/-- Witness for C4: a non-reserved identifier is untouched and escaping the
reserved word "map" twice equals escaping it once. -/
theorem replaceReservedWords_spec_witness :
    replaceReservedWords "hello" = "hello" ∧
    replaceReservedWords (replaceReservedWords "map") = replaceReservedWords "map" :=
  ⟨replaceReservedWords_spec.2.1 "hello" (by decide),
   replaceReservedWords_spec.2.2 "map"⟩

/-- C6: whenever the rendering loop succeeded and post-processing of the
rendered buffer fails, `genCode` writes the original unformatted buffer to the
namespace's output file and dies with the fatal message naming that file and
the underlying formatting error; when post-processing succeeds, the
reformatted text (not the raw buffer) is written and there is no fatal
message. -/
theorem genCode_postprocess_failure (fmtSource : String → Except String String)
    (render : String → Object → Except String String)
    (objects : List Object) (mainPkg tmpl ns source : String)
    (hrender : renderAll render objects tmpl ns (baseBuffer ns) = Except.ok source) :
    (∀ e, fmtSource source = Except.error e →
      genCode fmtSource render objects mainPkg tmpl ns =
        { file := outFile mainPkg ns, written := some source,
          fatalMsg := some ("There are errors in the generated source for " ++
            outFile mainPkg ns ++ ": " ++ e ++ "\n") }) ∧
    (∀ fsource, fmtSource source = Except.ok fsource →
      genCode fmtSource render objects mainPkg tmpl ns =
        { file := outFile mainPkg ns, written := some fsource, fatalMsg := none }) := by
  constructor
  · intro e he
    simp only [genCode, hrender, he]
  · intro fsource hf
    simp only [genCode, hrender, hf]

/-- Witness for C6: with a formatter that always fails, the raw boilerplate
buffer of the empty "mo" run is on disk and the fatal message names the file
and the error. -/
theorem genCode_postprocess_failure_witness :
    genCode (fun _ => Except.error "bad") (fun _ _ => Except.ok "") [] "./vim" "" "mo" =
      { file := outFile "./vim" "mo", written := some (baseBuffer "mo"),
        fatalMsg := some ("There are errors in the generated source for " ++
          outFile "./vim" "mo" ++ ": " ++ "bad" ++ "\n") } :=
  (genCode_postprocess_failure (fun _ => Except.error "bad") (fun _ _ => Except.ok "")
    [] "./vim" "" "mo" (baseBuffer "mo") rfl).1 "bad" rfl

/-- `.data` distributes over string concatenation. -/
theorem strData_append (s t : String) : (s ++ t).data = s.data ++ t.data := rfl

/-- Rebuilding a string from its characters is the identity. -/
theorem strMk_data (s : String) : String.mk s.data = s := rfl

/-- A string with a first character is not empty. -/
theorem str_ne_empty_of_data_cons {s : String} {c : Char} {t : List Char}
    (h : s.data = c :: t) : s ≠ "" := by
  intro hc
  rw [hc] at h
  exact absurd h (by simp [String.data])

/-- C3: `lookUpNamespace` is not total.  A non-empty query of one or two
characters that does not begin with "*" hits the out-of-range slice
`type_[0:3]` and panics (modelled `none`); the query returns a value exactly
on empty input, input beginning with "*", or input of length at least 3. -/
theorem lookUpNamespace_domain (m : List (String × String)) (s currentNs : String) :
    (s ≠ "" → strStartsWith s "*" = false →
      (s.data.length = 1 ∨ s.data.length = 2) →
      lookUpNamespace m s currentNs = none) ∧
    ((s = "" ∨ strStartsWith s "*" = true ∨ 3 ≤ s.data.length) →
      (lookUpNamespace m s currentNs).isSome = true) := by
  constructor
  · intro hne hstar hlen
    cases hs : s.data with
    | nil => exact absurd (by rw [← strMk_data s, hs]) hne
    | cons a t =>
      have ha : ¬(a = '*') := by
        rw [strStartsWith, hs] at hstar
        simp [List.isPrefixOf] at hstar
        exact fun hc => hstar hc.symm
      simp only [lookUpNamespace, if_neg hne, hs]
      cases t with
      | nil => simp [ha]
      | cons b t2 =>
        cases t2 with
        | nil => simp [ha]
        | cons c t3 =>
          rw [hs] at hlen
          simp at hlen
  · intro h
    rcases h with h | h | h
    · simp [lookUpNamespace, h]
    · cases hs : s.data with
      | nil =>
        rw [strStartsWith, hs] at h
        simp [List.isPrefixOf] at h
      | cons a t =>
        have hne : s ≠ "" := str_ne_empty_of_data_cons hs
        have ha : a = '*' := by
          rw [strStartsWith, hs] at h
          simp [List.isPrefixOf] at h
          exact h.symm
        simp [lookUpNamespace, if_neg hne, hs, ha]
    · cases hs : s.data with
      | nil => rw [hs] at h; simp at h
      | cons a t =>
        have hne : s ≠ "" := str_ne_empty_of_data_cons hs
        cases t with
        | nil => rw [hs] at h; simp at h
        | cons b t2 =>
          cases t2 with
          | nil => rw [hs] at h; simp at h
          | cons c t3 =>
            simp only [lookUpNamespace, if_neg hne, hs]
            by_cases ha : a = '*'
            · simp [ha]
            · simp only [if_neg ha]
              split_ifs <;> simp

/-- Witness for C3: the two-character bare name "ab" panics, the
three-character bare name "abc" resolves. -/
theorem lookUpNamespace_domain_witness :
    lookUpNamespace [] "ab" "mo" = none ∧
    (lookUpNamespace [] "abc" "mo").isSome = true :=
  ⟨(lookUpNamespace_domain [] "ab" "mo").1 (by decide) (by decide) (by decide),
   (lookUpNamespace_domain [] "abc" "mo").2 (Or.inr (Or.inr (by decide)))⟩

/-- The empty string has no characters. -/
theorem strData_empty : ("" : String).data = [] := rfl

/-- A string is empty exactly when it has no characters. -/
theorem str_eq_empty_iff (s : String) : s = "" ↔ s.data = [] := by
  constructor
  · intro h; rw [h]
  · intro h; rw [← strMk_data s, h]

/-- C2, counterexample to the claim as stated.  First conjunct: the name "ab"
is present in the index (owner "mo"); with the empty decoration and current
namespace "do" the claim demands the qualified name `some "mo.ab"`, but the
code panics (`none`) on the out-of-range slice.  Second conjunct: the name
"*ab" is present in the index (owner "mo"); with the empty decoration and the
owner itself as current namespace the claim demands the bare name
`some "*ab"`, but the code strips the leading "*" as a decoration, resolves
the different name "ab" and returns `some "*do.ab"`. -/
theorem lookUpNamespace_resolve_cex :
    lookUpNamespace [("ab", "mo")] "ab" "do" = none ∧
    lookUpNamespace [("*ab", "mo"), ("ab", "do")] "*ab" "mo" = some "*do.ab" := by
  decide

/-- C2 (amended): for every composite type name that is at least three
characters long and does not itself begin with a decoration marker ("*" or
"[]"), and every reference decoration (none, "*", "[]", "[]*"),
`lookUpNamespace` returns the decorated bare name when the name is absent
from the index or owned by the current namespace, and the decorated
namespace-qualified name otherwise. -/
theorem lookUpNamespace_resolve (m : List (String × String))
    (name currentNs d : String)
    (hd : d = "" ∨ d = "*" ∨ d = "[]" ∨ d = "[]*")
    (hlen : 3 ≤ name.data.length)
    (hstar : strStartsWith name "*" = false)
    (hbr : strStartsWith name "[]" = false) :
    lookUpNamespace m (d ++ name) currentNs =
      some (if mapGet m name = "" ∨ mapGet m name = currentNs then d ++ name
            else d ++ mapGet m name ++ "." ++ name) := by
  obtain ⟨a, b, c, t, hdata⟩ : ∃ a b c t, name.data = a :: b :: c :: t := by
    cases h1 : name.data with
    | nil => rw [h1] at hlen; simp at hlen
    | cons x t1 =>
      cases t1 with
      | nil => rw [h1] at hlen; simp at hlen
      | cons y t2 =>
        cases t2 with
        | nil => rw [h1] at hlen; simp at hlen
        | cons z t3 => exact ⟨x, y, z, t3, rfl⟩
  have ha : ¬(a = '*') := by
    rw [strStartsWith, hdata] at hstar
    simp [List.isPrefixOf] at hstar
    exact fun hc => hstar hc.symm
  have hab : ¬(a = '[' ∧ b = ']') := by
    rw [strStartsWith, hdata] at hbr
    simp [List.isPrefixOf] at hbr
    intro hc
    exact absurd (And.intro hc.1.symm hc.2.symm) (by tauto)
  have hab3 : ¬(a = '[' ∧ b = ']' ∧ c = '*') := fun hc => hab ⟨hc.1, hc.2.1⟩
  have hmkname : String.mk (a :: b :: c :: t) = name := by rw [← hdata]
  have hnamene : name ≠ "" := str_ne_empty_of_data_cons hdata
  rcases hd with rfl | rfl | rfl | rfl
  · have hid : "" ++ name = name := by
      rw [← strMk_data ("" ++ name), strData_append, strData_empty]; rfl
    rw [hid]
    simp only [lookUpNamespace, if_neg hnamene, hdata]
    rw [if_neg ha, if_neg hab3, if_neg hab]
    rfl
  · have hdata2 : ("*" ++ name).data = '*' :: a :: b :: c :: t := by
      rw [strData_append, hdata]; rfl
    have hne : "*" ++ name ≠ "" := str_ne_empty_of_data_cons hdata2
    simp only [lookUpNamespace, if_neg hne, hdata2]
    rw [if_pos trivial, hmkname]
    rfl
  · have hdata2 : ("[]" ++ name).data = '[' :: ']' :: a :: b :: c :: t := by
      rw [strData_append, hdata]; rfl
    have hne : "[]" ++ name ≠ "" := str_ne_empty_of_data_cons hdata2
    have hbra : ¬(('[' : Char) = '*') := by decide
    have hc3 : ¬(('[' : Char) = '[' ∧ (']' : Char) = ']' ∧ a = '*') := by
      intro hc; exact ha hc.2.2
    simp only [lookUpNamespace, if_neg hne, hdata2]
    rw [if_neg (fun hcon => ha hcon.2.2 : ¬(True ∧ True ∧ a = '*')),
      if_pos (And.intro trivial trivial), hmkname]
    rfl
  · have hdata2 : ("[]*" ++ name).data = '[' :: ']' :: '*' :: a :: b :: c :: t := by
      rw [strData_append, hdata]; rfl
    have hne : "[]*" ++ name ≠ "" := str_ne_empty_of_data_cons hdata2
    have hbra : ¬(('[' : Char) = '*') := by decide
    simp only [lookUpNamespace, if_neg hne, hdata2]
    rw [if_pos (And.intro trivial (And.intro trivial trivial)), hmkname]
    rfl

/-- Witness for C2 (amended): the name "HostSystem" owned by "do", decorated
"[]*", resolved from current namespace "mo", yields the decorated qualified
name. -/
theorem lookUpNamespace_resolve_witness :
    lookUpNamespace [("HostSystem", "do")] ("[]*" ++ "HostSystem") "mo" =
      some (if mapGet [("HostSystem", "do")] "HostSystem" = "" ∨
               mapGet [("HostSystem", "do")] "HostSystem" = "mo"
            then "[]*" ++ "HostSystem"
            else "[]*" ++ mapGet [("HostSystem", "do")] "HostSystem" ++ "." ++ "HostSystem") :=
  lookUpNamespace_resolve [("HostSystem", "do")] "HostSystem" "mo" "[]*"
    (Or.inr (Or.inr (Or.inr rfl))) (by decide) (by decide) (by decide)

/-- `find?` over an append: the first list is searched first. -/
theorem find?_append_match {α : Type} (p : α → Bool) (l1 l2 : List α) :
    (l1 ++ l2).find? p =
      match l1.find? p with
      | some a => some a
      | none => l2.find? p := by
  induction l1 with
  | nil => simp
  | cons x xs ih =>
    by_cases h : p x
    · simp [List.find?, h]
    · simp [List.find?, h, ih]

/-- Reading a map after one more binding: the new binding shadows. -/
theorem mapGet_cons (k v : String) (m : List (String × String)) (target : String) :
    mapGet ((k, v) :: m) target = if k == target then v else mapGet m target := by
  by_cases h : k == target
  · simp [mapGet, List.find?, h]
  · simp [mapGet, List.find?, h]

/-- The population loop, started from an arbitrary pre-state. -/
theorem objnsmapOf_fold (objects : List Object) (m : List (String × String))
    (target : String) :
    mapGet (objects.foldl (fun acc obj => (obj.Name, obj.Namespace) :: acc) m) target =
      match objects.reverse.find? (fun o => o.Name == target) with
      | some o => o.Namespace
      | none => mapGet m target := by
  induction objects generalizing m with
  | nil => simp
  | cons o rest ih =>
    simp only [List.foldl_cons, List.reverse_cons, ih, find?_append_match]
    cases hf : rest.reverse.find? (fun x => x.Name == target) with
    | some o2 => rfl
    | none =>
      by_cases h : o.Name == target
      · simp [List.find?, h, mapGet_cons]
      · simp [List.find?, h, mapGet_cons]

/-- C10: the `objnsmap` build pass applies plain map assignment per object, so
a name shared by several objects ends up bound to the namespace of the LAST
such object in schema order (the first hit in the reversed list), earlier
bindings being silently overwritten; a name carried by no object reads as the
zero value "".  The loop produces nothing but the map itself — no duplicate
detection or report exists in the embedded build pass. -/
theorem objnsmap_last_wins (objects : List Object) (target : String) :
    mapGet (objnsmapOf objects) target =
      match objects.reverse.find? (fun o => o.Name == target) with
      | some o => o.Namespace
      | none => "" := by
  rw [objnsmapOf, objnsmapOf_fold]
  cases objects.reverse.find? (fun o => o.Name == target) <;> rfl

/-- The object loop touches nothing when no object matches the namespace. -/
theorem renderAll_no_match (render : String → Object → Except String String)
    (objects : List Object) (tmpl ns acc : String)
    (h : ∀ o ∈ objects, o.Namespace ≠ ns) :
    renderAll render objects tmpl ns acc = Except.ok acc := by
  induction objects with
  | nil => rfl
  | cons o rest ih =>
    have ho : o.Namespace ≠ ns := h o (by simp)
    rw [renderAll, if_pos ho]
    exact ih (fun o2 ho2 => h o2 (by simp [ho2]))

set_option maxRecDepth 10000 in
/-- C8: for each of the four fixed output namespaces, generation over an
input with zero objects of that namespace is not an error: the output unit is
exactly the fixed boilerplate (license banner, package clause, that
namespace's fixed import block) with an empty body, post-processing succeeds
on it, and no fatal message is produced. -/
theorem genCode_empty_namespace (ns : String)
    (hns : ns ∈ ["mo", "do", "enum", "fault"])
    (render : String → Object → Except String String) (objects : List Object)
    (mainPkg tmpl : String) (hempty : ∀ o ∈ objects, o.Namespace ≠ ns) :
    genCode goFmtModel render objects mainPkg tmpl ns =
      { file := outFile mainPkg ns,
        written := some (headerTmpl ++ "package " ++ ns ++ "\n" ++ importBlock ns),
        fatalMsg := none } := by
  have hr := renderAll_no_match render objects tmpl ns (baseBuffer ns) hempty
  have hfmt : goFmtModel (baseBuffer ns) = Except.ok (baseBuffer ns) := by
    fin_cases hns <;> rfl
  simp only [genCode, hr, hfmt]
  rfl

/-- Witness for C8: one schema object owned by "mo" and a renderer that would
fail if consulted; the "enum" unit is still the fixed boilerplate with no
fatal message. -/
theorem genCode_empty_namespace_witness :
    genCode goFmtModel (fun _ _ => Except.error "boom")
      [{ Name := "VirtualMachine", Namespace := "mo", Extends := "",
         Fields := [], Methods := [] }] "./vim" "tmpl" "enum" =
      { file := outFile "./vim" "enum",
        written := some (headerTmpl ++ "package " ++ "enum" ++ "\n" ++ importBlock "enum"),
        fatalMsg := none } :=
  genCode_empty_namespace "enum" (by simp) (fun _ _ => Except.error "boom")
    [{ Name := "VirtualMachine", Namespace := "mo", Extends := "",
       Fields := [], Methods := [] }] "./vim" "tmpl" (by decide)

/-- Unfolding `splitOnChar` on the empty text. -/
theorem splitOnChar_nil (sep : Char) : splitOnChar sep [] = [[]] := rfl

/-- Unfolding `splitOnChar` on one more character. -/
theorem splitOnChar_cons (sep c : Char) (cs : List Char) :
    splitOnChar sep (c :: cs) =
      if c = sep then [] :: splitOnChar sep cs
      else (c :: (splitOnChar sep cs).headD []) :: (splitOnChar sep cs).tail := rfl

/-- A split always yields at least one segment. -/
theorem splitOnChar_ne_nil (sep : Char) (cs : List Char) : splitOnChar sep cs ≠ [] := by
  cases cs with
  | nil => simp [splitOnChar_nil]
  | cons c cs2 => rw [splitOnChar_cons]; split <;> simp

/-- The split is the single empty segment exactly for the empty text. -/
theorem splitOnChar_eq_single_nil (sep : Char) (cs : List Char) :
    splitOnChar sep cs = [[]] ↔ cs = [] := by
  constructor
  · intro h
    cases cs with
    | nil => rfl
    | cons c cs2 =>
      rw [splitOnChar_cons] at h
      by_cases hc : c = sep
      · rw [if_pos hc] at h
        injection h with h1 h2
        exact absurd h2 (splitOnChar_ne_nil sep cs2)
      · rw [if_neg hc] at h
        injection h with h1 h2
        exact absurd h1 (by simp)
  · intro h; rw [h, splitOnChar_nil]

/-- No segment of a split contains the separator. -/
theorem splitOnChar_mem_not_sep (sep : Char) (cs : List Char) :
    ∀ l ∈ splitOnChar sep cs, sep ∉ l := by
  induction cs with
  | nil =>
    intro l hl
    rw [splitOnChar_nil] at hl
    simp at hl
    simp [hl]
  | cons c cs2 ih =>
    intro l hl
    rw [splitOnChar_cons] at hl
    obtain ⟨hh, ht, heq⟩ := List.exists_cons_of_ne_nil (splitOnChar_ne_nil sep cs2)
    by_cases hc : c = sep
    · rw [if_pos hc] at hl
      rcases List.mem_cons.mp hl with hl1 | hl2
      · simp [hl1]
      · exact ih l hl2
    · rw [if_neg hc, heq] at hl
      rcases List.mem_cons.mp hl with hl1 | hl2
      · rw [hl1]
        intro hmem
        rcases List.mem_cons.mp hmem with h1 | h2
        · exact hc h1.symm
        · exact ih hh (by rw [heq]; exact List.mem_cons_self _ _) h2
      · exact ih l (by rw [heq]; exact List.mem_cons_of_mem _ hl2)

/-- Prepending separator-free characters extends the first segment. -/
theorem splitOnChar_append (sep : Char) (l cs : List Char) (h : sep ∉ l) :
    splitOnChar sep (l ++ cs) =
      (l ++ (splitOnChar sep cs).headD []) :: (splitOnChar sep cs).tail := by
  induction l with
  | nil =>
    obtain ⟨hh, ht, heq⟩ := List.exists_cons_of_ne_nil (splitOnChar_ne_nil sep cs)
    rw [List.nil_append, heq]
    rfl
  | cons x xs ih =>
    have hx : ¬(x = sep) := fun hc => h (by rw [hc]; exact List.mem_cons_self _ _)
    have h2 : sep ∉ xs := fun hc => h (List.mem_cons_of_mem _ hc)
    rw [List.cons_append, splitOnChar_cons, if_neg hx, ih h2]
    simp

/-- Splitting the emitted comment block: one leading empty segment, then one
"// "-prefixed trimmed segment per input line. -/
theorem splitOnChar_commentBody (ls : List (List Char))
    (hnl : ∀ l ∈ ls, '\n' ∉ l) (hne : ls ≠ []) :
    splitOnChar '\n' (commentBody ls) =
      [] :: ls.map (fun l => '/' :: '/' :: ' ' :: commentLine l) := by
  induction ls with
  | nil => exact absurd rfl hne
  | cons l rest ih =>
    have hpiece : '\n' ∉ '/' :: '/' :: ' ' :: commentLine l := by
      intro hmem
      rcases List.mem_cons.mp hmem with h1 | hmem
      · exact absurd h1 (by decide)
      rcases List.mem_cons.mp hmem with h1 | hmem
      · exact absurd h1 (by decide)
      rcases List.mem_cons.mp hmem with h1 | hmem
      · exact absurd h1 (by decide)
      · exact hnl l (List.mem_cons_self _ _)
          ((List.dropWhile_sublist goIsSpace).subset hmem)
    have hbody : commentBody (l :: rest) =
        '\n' :: (('/' :: '/' :: ' ' :: commentLine l) ++ commentBody rest) := rfl
    rw [hbody, splitOnChar_cons, if_pos rfl,
      splitOnChar_append ('\n') ('/' :: '/' :: ' ' :: commentLine l) (commentBody rest) hpiece]
    cases rest with
    | nil => simp [commentBody, splitOnChar_nil]
    | cons r rest2 =>
      have ihr := ih (fun x hx => hnl x (List.mem_cons_of_mem _ hx)) (by simp)
      rw [ihr]
      simp

/-- The loop's `hasComment` flag is the negation of "every character of the
text is whitespace" (a newline itself counts as whitespace). -/
theorem hasCommentFlag_splitOnChar (cs : List Char) :
    hasCommentFlag (splitOnChar '\n' cs) = !cs.all goIsSpace := by
  induction cs with
  | nil => rfl
  | cons c cs2 ih =>
    rw [splitOnChar_cons]
    by_cases hc : c = '\n'
    · rw [if_pos hc]
      have hnc : goIsSpace c = true := by rw [hc]; decide
      simp [hasCommentFlag, commentLine, List.any_cons, hnc] at ih ⊢
      exact ih
    · rw [if_neg hc]
      obtain ⟨hh, ht, heq⟩ := List.exists_cons_of_ne_nil (splitOnChar_ne_nil '\n' cs2)
      rw [heq] at ih ⊢
      by_cases hsp : goIsSpace c
      · simp [hasCommentFlag, commentLine, List.any_cons, List.dropWhile, hsp] at ih ⊢
        exact ih
      · simp [hasCommentFlag, commentLine, List.any_cons, List.dropWhile, hsp]

/-- The comment block of a non-empty line list starts with a newline. -/
theorem commentBody_head (l : List Char) (rest : List (List Char)) :
    (commentBody (l :: rest)).head? = some '\n' := rfl

/-- C9: the comment formatter returns the empty result exactly when the text
is empty or all-whitespace; on any other text the result starts with a line
break and splits on newlines into one leading empty segment followed by one
segment per input line, each being "// " followed by the left-trimmed line. -/
theorem comment_spec (text : String) :
    (comment text = "" ↔ (text = "" ∨ text.data.all goIsSpace = true)) ∧
    (comment text ≠ "" →
      (comment text).data.head? = some '\n' ∧
      splitOnChar '\n' (comment text).data =
        [] :: (splitOnChar '\n' text.data).map
          (fun l => '/' :: '/' :: ' ' :: commentLine l)) := by
  by_cases h0 : splitOnChar '\n' text.data = [[]]
  · have htext : text = "" :=
      (str_eq_empty_iff text).mpr ((splitOnChar_eq_single_nil '\n' text.data).mp h0)
    have hcomm : comment text = "" := by rw [comment, if_pos h0]
    exact ⟨⟨fun _ => Or.inl htext, fun _ => hcomm⟩, fun hne => absurd hcomm hne⟩
  · have hcomm : comment text =
        if hasCommentFlag (splitOnChar '\n' text.data)
        then String.mk (commentBody (splitOnChar '\n' text.data)) else "" := by
      rw [comment, if_neg h0]
    by_cases hflag : hasCommentFlag (splitOnChar '\n' text.data)
    · obtain ⟨hh, ht, heq⟩ :=
        List.exists_cons_of_ne_nil (splitOnChar_ne_nil '\n' text.data)
      have hval : comment text = String.mk (commentBody (splitOnChar '\n' text.data)) := by
        rw [hcomm, if_pos hflag]
      have hnonempty : comment text ≠ "" := by
        rw [hval, heq]
        intro hcon
        have : (commentBody (hh :: ht)) = [] := (str_eq_empty_iff _).mp hcon
        rw [commentBody] at this
        exact absurd this (by simp)
      constructor
      · constructor
        · intro hcon; exact absurd hcon hnonempty
        · intro hor
          rcases hor with htext | hall
          · exact absurd ((str_eq_empty_iff text).mp htext)
              ((splitOnChar_eq_single_nil '\n' text.data).not.mp h0)
          · rw [hasCommentFlag_splitOnChar, hall] at hflag
            simp at hflag
      · intro hne
        constructor
        · rw [hval, heq]; exact commentBody_head hh ht
        · rw [hval]
          exact splitOnChar_commentBody (splitOnChar '\n' text.data)
            (splitOnChar_mem_not_sep '\n' text.data)
            (splitOnChar_ne_nil '\n' text.data)
    · have hcomm2 : comment text = "" := by rw [hcomm, if_neg hflag]
      have hall : text.data.all goIsSpace = true := by
        rw [hasCommentFlag_splitOnChar] at hflag
        simpa using hflag
      exact ⟨⟨fun _ => Or.inr hall, fun _ => hcomm2⟩, fun hne => absurd hcomm2 hne⟩

/-- Witness for C9: a whitespace-only text yields the empty result; the text
"a\nb" yields a block leading with a newline whose segments are "// a" and
"// b". -/
theorem comment_spec_witness :
    (comment "  " = "" ↔ ("  " = "" ∨ "  ".data.all goIsSpace = true)) ∧
    ((comment "a\nb").data.head? = some '\n' ∧
      splitOnChar '\n' (comment "a\nb").data =
        [] :: (splitOnChar '\n' "a\nb".data).map
          (fun l => '/' :: '/' :: ' ' :: commentLine l)) :=
  ⟨(comment_spec "  ").1, (comment_spec "a\nb").2 (by decide)⟩
